import Mathlib

set_option maxRecDepth 100000

/-!
Shallow embedding of the mapped-file abstraction `mapped.File`
(src/mapped/file.go) from yrpc/util, together with theorems about its
read path, write path, commit protocol, resize and open/close lifecycle.

Modelling conventions:
* Bytes are `Nat` (a Go `byte` value); byte slices are `List Nat`.
* Go `int64` / `int` values are Lean `Int` / `Nat`; the positions involved
  are far below 2^63 in every scenario considered, so wrap-around is not
  modelled.
* Calls into the OS (descriptor write, truncate, mmap, ...) are external:
  their outcomes are passed in as explicit environment records, and the
  functions compute exactly what the Go code does with those outcomes.
* A Go slice expression `s[a:b]` panics unless `0 ≤ a ≤ b ≤ len s`; where a
  claim could reach a panicking index, the result type carries an explicit
  `panicked` outcome.
-/

namespace Mapped

/-- Error values of src/mapped/file.go lines 99-105: `errPoolForReadonly`,
`ErrWriteBeyond`, `ErrReadBeyond`, plus a representative propagated OS error. -/
inductive Err where
  | poolForReadonly
  | writeBeyond
  | readBeyond
  | osErr
deriving DecidableEq

/-- The fields of `mapped.File` that the claims are about (file.go lines 47-64).
`writeBuffer = some l` models a non-nil `*bytes.Buffer` holding bytes `l`;
`hasPool` models `pool != nil`; `fmap` is the mapped region (a Go nil slice
and an empty slice are both `[]`, which agree on `len` and slicing). -/
structure File where
  wrotePosition : Int
  commitPosition : Int
  writeBuffer : Option (List Nat)
  hasPool : Bool
  fileSize : Int
  fmap : List Nat
  wmm : Bool
deriving DecidableEq

/-- Length of the write buffer (`writeBuffer.Len()`), zero when nil. -/
def File.bufLen (f : File) : Int :=
  match f.writeBuffer with
  | none => 0
  | some l => (l.length : Int)

/-- `getCommitPosition` (file.go line 246): atomic load of `commitPosition`. -/
def getCommitPosition (f : File) : Int := f.commitPosition

/-- `GetWrotePosition` (file.go line 228): atomic load of `wrotePosition`. -/
def GetWrotePosition (f : File) : Int := f.wrotePosition

/-- `getReadPosition` (file.go lines 238-244): the read boundary is the commit
position when a write buffer exists, else the wrote position. -/
def getReadPosition (f : File) : Int :=
  if f.writeBuffer.isSome then getCommitPosition f else GetWrotePosition f

/-- Result of `ReadRLocked`: the beyond-boundary error, a Go slice-bounds
panic, or success carrying the bytes copied into `data` and the returned
count `n`. -/
inductive ReadResult where
  | beyond
  | panicked
  | ok (copied : List Nat) (n : Int)
deriving DecidableEq

/-- The Go slice `l[a:b]` for `0 ≤ a ≤ b ≤ len l` (junk outside that range;
callers guard with the panic check). -/
def goSlice (l : List Nat) (a b : Int) : List Nat :=
  (l.take b.toNat).drop a.toNat

/-- `ReadRLocked` (file.go lines 429-444): fail with `ErrReadBeyond` when
`offset > readPosition`; otherwise clamp `readTo` to the boundary, copy
`fmap[offset : readTo+1]` into `data` and return `readTo - offset + 1`.
The `copy` never truncates because `readTo+1-offset ≤ len data`. -/
def ReadRLocked (f : File) (offset : Int) (dataLen : Nat) : ReadResult :=
  let readPosition := getReadPosition f
  if offset > readPosition then .beyond
  else
    let readTo0 := offset + (dataLen : Int) - 1
    let readTo := if readTo0 > readPosition then readPosition else readTo0
    if 0 ≤ offset ∧ offset ≤ readTo + 1 ∧ readTo + 1 ≤ (f.fmap.length : Int) then
      .ok (goSlice f.fmap offset (readTo + 1)) (readTo - offset + 1)
    else .panicked

/-- The Go statement `copy(dst[pos:], src)` for `0 ≤ pos ≤ len dst`: writes
`min (len src) (len dst - pos)` bytes of `src` at `pos`, never growing `dst`.
(For `pos` outside that range Go panics; every use below is guarded by the
capacity check together with `0 ≤ wrotePosition` / `commitPosition`.) -/
def listCopyAt (dst : List Nat) (pos : Int) (src : List Nat) : List Nat :=
  dst.take pos.toNat ++ src.take (dst.length - pos.toNat) ++ dst.drop (pos.toNat + src.length)

/-- Outcome of the one external call in the single-buffer write path: the
result of `f.file.Write(data)` in descriptor mode (`fileWriteErr = true`
stands for a non-nil OS error, which is always distinct from
`ErrWriteBeyond` and `ErrReadBeyond`). -/
structure WEnv where
  fileWriteN : Int
  fileWriteErr : Bool
deriving DecidableEq

/-- Result of `Write`/`doWrite`: the post state, the reported count `n` and
the error. -/
structure WriteOut where
  f : File
  n : Int
  err : Option Err
deriving DecidableEq

/-- `doWrite` (file.go lines 307-331): buffered mode appends to `writeBuffer`
(a `bytes.Buffer.Write` always accepts everything); direct-mapped mode copies
into `fmap` at `wrotePosition`; descriptor mode writes through the file and
advances by whatever count the OS reports. -/
def doWrite (env : WEnv) (f : File) (data : List Nat) : WriteOut :=
  match f.writeBuffer with
  | some wb =>
      ⟨{ f with writeBuffer := some (wb ++ data),
                wrotePosition := f.wrotePosition + (data.length : Int) },
        (data.length : Int), none⟩
  | none =>
    if f.wmm then
      ⟨{ f with fmap := listCopyAt f.fmap f.wrotePosition data,
                wrotePosition := f.wrotePosition + (data.length : Int) },
        (data.length : Int), none⟩
    else
      ⟨{ f with wrotePosition := f.wrotePosition + env.fileWriteN },
        env.fileWriteN, if env.fileWriteErr then some .osErr else none⟩

/-- `Write` (file.go lines 256-264): reject with `ErrWriteBeyond` when
`wrotePosition + len data > fileSize`, leaving the state untouched;
otherwise dispatch to `doWrite`. -/
def Write (env : WEnv) (f : File) (data : List Nat) : WriteOut :=
  if f.wrotePosition + (data.length : Int) > f.fileSize then
    ⟨f, 0, some .writeBeyond⟩
  else doWrite env f data

/-- Aggregate length of a `net.Buffers` value. -/
def totalLen (buffs : List (List Nat)) : Int :=
  ((buffs.map List.length).sum : Nat)

/-- `net.Buffers.consume(n)`: drop whole buffers covered by the first `n`
written bytes and truncate the first partially-written one. -/
def buffersConsume (n : Int) (buffs : List (List Nat)) : List (List Nat) :=
  match buffs with
  | [] => []
  | b :: rest =>
      if n < (b.length : Int) then b.drop n.toNat :: rest
      else buffersConsume (n - (b.length : Int)) rest

/-- The direct-mapped loop of `WriteBuffers`: `copy(fmap[wrote+n:], buf)` for
each buffer in order, `n` accumulating the lengths. -/
def writeListsAt (dst : List Nat) (pos : Int) (srcs : List (List Nat)) : List Nat :=
  match srcs with
  | [] => dst
  | s :: rest => writeListsAt (listCopyAt dst pos s) (pos + (s.length : Int)) rest

/-- Outcome of the one external call in the vectored write path: the result
of `buffs.WriteTo(f.file)` in descriptor mode (`net.Buffers.WriteTo`
consumes exactly the bytes it reports written, and reports a nil error only
after writing everything; `writeToErr = true` stands for a non-nil OS error,
always distinct from `ErrWriteBeyond`/`ErrReadBeyond`). -/
structure WBEnv where
  writeToN : Int
  writeToErr : Bool
deriving DecidableEq

/-- Result of `WriteBuffers`: post state, the state of the caller's buffer
slice after the call, the reported count, the error, and whether the call
panicked (slice bound violation) instead of returning. -/
structure WBOut where
  f : File
  buffs : List (List Nat)
  n : Int
  err : Option Err
  panicked : Bool
deriving DecidableEq

/-- `WriteBuffers` (file.go lines 267-305): capacity check against the
aggregate length; buffered mode drains the whole batch into `writeBuffer`
(`WriteTo` into a `bytes.Buffer` always writes everything and empties the
slice); direct-mapped mode copies each buffer in order into `fmap` and then
executes `*buffs = (*buffs)[nbuf-1:]`, which keeps exactly the last element —
and panics when the batch was empty; descriptor mode forwards to
`buffs.WriteTo(f.file)` and advances by whatever count it reports. -/
def WriteBuffers (env : WBEnv) (f : File) (buffs : List (List Nat)) : WBOut :=
  if f.wrotePosition + totalLen buffs > f.fileSize then
    ⟨f, buffs, 0, some .writeBeyond, false⟩
  else
    match f.writeBuffer with
    | some wb =>
        ⟨{ f with writeBuffer := some (wb ++ buffs.flatten),
                  wrotePosition := f.wrotePosition + totalLen buffs },
          [], totalLen buffs, none, false⟩
    | none =>
      if f.wmm then
        if buffs.length = 0 then
          ⟨{ f with fmap := writeListsAt f.fmap f.wrotePosition buffs,
                    wrotePosition := f.wrotePosition + totalLen buffs },
            buffs, totalLen buffs, none, true⟩
        else
          ⟨{ f with fmap := writeListsAt f.fmap f.wrotePosition buffs,
                    wrotePosition := f.wrotePosition + totalLen buffs },
            buffs.drop (buffs.length - 1), totalLen buffs, none, false⟩
      else
        ⟨{ f with wrotePosition := f.wrotePosition + env.writeToN },
          buffersConsume env.writeToN buffs, env.writeToN,
          if env.writeToErr then some .osErr else none, false⟩

/-- `commitLocked` (file.go lines 333-360): nothing to do when the buffer is
nil or empty; otherwise drain the buffer — direct-mapped mode copies it into
`fmap` at `commitPosition` and resets it, descriptor mode drains it into the
file under `TryUntilSuccess` (retried until the descriptor accepts
everything, so the net effect by the time the call returns is a full drain) —
then advance `commitPosition` by the drained length. -/
def commitLocked (f : File) : File × Int :=
  match f.writeBuffer with
  | none => (f, f.wrotePosition)
  | some wb =>
    if wb.length = 0 then (f, f.wrotePosition)
    else if f.wmm then
      ({ f with fmap := listCopyAt f.fmap f.commitPosition wb,
                commitPosition := f.commitPosition + (wb.length : Int),
                writeBuffer := some [] }, f.commitPosition + (wb.length : Int))
    else
      ({ f with writeBuffer := some [],
                commitPosition := f.commitPosition + (wb.length : Int) },
        f.commitPosition + (wb.length : Int))

/-- `Commit` (file.go lines 363-373). -/
def Commit (f : File) : File × Int :=
  match f.writeBuffer with
  | none => (f, f.wrotePosition)
  | some _ => commitLocked f

/-- `returnWriteBuffer` (file.go lines 488-499): reset the buffer, put it
back into the pool and clear both references; a no-op when already nil. -/
def returnWriteBuffer (f : File) : File :=
  match f.writeBuffer with
  | none => f
  | some _ => { f with writeBuffer := none, hasPool := false }

/-- `DoneWrite` (file.go lines 376-389): `commitLocked` followed by
`returnWriteBuffer`. -/
def DoneWrite (f : File) : File × Int :=
  match f.writeBuffer with
  | none => (f, f.wrotePosition)
  | some _ => (returnWriteBuffer (commitLocked f).1, (commitLocked f).2)

/-- Outcomes of the external calls made by `Resize`: truncate, msync, munmap
and the new mapping produced by mmap. -/
structure REnv where
  truncateOk : Bool
  msyncOk : Bool
  munmapOk : Bool
  mmapOk : Bool
  newMap : List Nat
deriving DecidableEq

/-- `Resize` (file.go lines 190-225): no-op when the size is unchanged;
truncate, then (when a mapping exists) msync and munmap it, then remap; on
success update `fileSize` and clamp `wrotePosition` down to `newSize`.
A failed mmap leaves `fmap` overwritten with the nil result. -/
def Resize (env : REnv) (f : File) (newSize : Int) : File × Option Err :=
  if f.fileSize = newSize then (f, none)
  else if ¬ env.truncateOk then (f, some .osErr)
  else if f.fmap ≠ [] ∧ ¬ env.msyncOk then (f, some .osErr)
  else if f.fmap ≠ [] ∧ ¬ env.munmapOk then (f, some .osErr)
  else if ¬ env.mmapOk then ({ f with fmap := [] }, some .osErr)
  else if f.wrotePosition > newSize then
    ({ f with fmap := env.newMap, fileSize := newSize,
              wrotePosition := newSize }, none)
  else ({ f with fmap := env.newMap, fileSize := newSize }, none)

/-- `Shrink` (file.go lines 392-397): `Commit` then `Resize` down to the
current `wrotePosition`. -/
def Shrink (env : REnv) (f : File) : File × Option Err :=
  Resize env (Commit f).1 (Commit f).1.wrotePosition

/-- Outcomes of the external calls made during `init`: the `os.OpenFile`,
`Stat` (with the reported size), `Truncate`, `Seek` and `Mmap` steps, and
the content of the fresh mapping. -/
structure OEnv where
  openOk : Bool
  statOk : Bool
  statSize : Int
  truncateOk : Bool
  seekOk : Bool
  mmapOk : Bool
  initMap : List Nat
deriving DecidableEq

/-- Result of `OpenFile`/`init`: the (possibly abandoned) `File` value, the
error, and whether the failure path closed the descriptor and returned the
pool buffer. -/
structure OpenOut where
  f : File
  err : Option Err
  fileClosed : Bool
  bufferReturned : Bool
deriving DecidableEq

/-- The deferred cleanup of `init` (file.go lines 114-120): close the
descriptor and `returnWriteBuffer`; reports whether a buffer was actually
returned. -/
def cleanup (f : File) : File × Bool :=
  (returnWriteBuffer f, f.writeBuffer.isSome)

/-- `init` (file.go lines 108-169). Crucially, the deferred cleanup is
registered only AFTER `os.OpenFile` has returned successfully: when the open
itself fails, neither the close nor `returnWriteBuffer` runs. On the
open-existing path `f.fileSize` arrives holding the resume offset; an offset
beyond the actual size is `ErrWriteBeyond`, otherwise the actual size is
adopted, the descriptor is seeked (descriptor mode only) and both positions
start at the offset. Finally the file is mapped. -/
def init (env : OEnv) (excl : Bool) (f : File) : OpenOut :=
  if ¬ env.openOk then ⟨f, some .osErr, false, false⟩
  else if ¬ env.statOk then
    ⟨(cleanup f).1, some .osErr, true, (cleanup f).2⟩
  else if excl then
    if ¬ env.truncateOk then ⟨(cleanup f).1, some .osErr, true, (cleanup f).2⟩
    else if ¬ env.mmapOk then ⟨(cleanup f).1, some .osErr, true, (cleanup f).2⟩
    else ⟨{ f with fmap := env.initMap }, none, false, false⟩
  else if f.fileSize > env.statSize then
    ⟨(cleanup f).1, some .writeBeyond, true, (cleanup f).2⟩
  else if ¬ f.wmm ∧ ¬ env.seekOk then
    ⟨(cleanup { f with fileSize := env.statSize }).1, some .osErr, true,
      (cleanup { f with fileSize := env.statSize }).2⟩
  else if ¬ env.mmapOk then
    ⟨(cleanup { f with
                fileSize := env.statSize
                wrotePosition := f.fileSize
                commitPosition :=
                  if f.writeBuffer.isSome then f.fileSize
                  else f.commitPosition }).1,
      some .osErr, true,
      (cleanup { f with
                 fileSize := env.statSize
                 wrotePosition := f.fileSize
                 commitPosition :=
                   if f.writeBuffer.isSome then f.fileSize
                   else f.commitPosition }).2⟩
  else
    ⟨{ f with
       fileSize := env.statSize
       wrotePosition := f.fileSize
       commitPosition :=
         if f.writeBuffer.isSome then f.fileSize else f.commitPosition
       fmap := env.initMap }, none, false, false⟩

/-- `OpenFile` (file.go lines 67-86): a writable open with a pool acquires a
buffer from it before `init`; a read-only open with a pool fails with
`errPoolForReadonly` without touching the OS. -/
def OpenFile (env : OEnv) (fileSize : Int) (writable excl wmm poolGiven : Bool) :
    OpenOut :=
  if writable then
    if poolGiven then init env excl ⟨0, 0, some [], true, fileSize, [], wmm⟩
    else init env excl ⟨0, 0, none, false, fileSize, [], wmm⟩
  else if poolGiven then
    ⟨⟨0, 0, none, false, fileSize, [], wmm⟩, some .poolForReadonly, false,
      false⟩
  else init env excl ⟨0, 0, none, false, fileSize, [], wmm⟩

/-- `CreateFile` (file.go lines 89-92): `OpenFile` with
`O_RDWR|O_CREATE|O_EXCL`. -/
def CreateFile (env : OEnv) (fileSize : Int) (wmm poolGiven : Bool) : OpenOut :=
  OpenFile env fileSize true true wmm poolGiven

/-- The position invariant of the spec, strengthened with the coupling that
actually makes the commit protocol safe: the committed prefix plus the bytes
still sitting in the write buffer never exceed `wrotePosition`. -/
def inv (f : File) : Prop :=
  0 ≤ f.commitPosition ∧
    f.commitPosition + f.bufLen ≤ f.wrotePosition ∧
    f.wrotePosition ≤ f.fileSize

instance (f : File) : Decidable (inv f) := by
  unfold inv; infer_instance

/-- A fresh buffered file as produced by `CreateFile(name, 1024, wmm, pool)`
followed by 100 buffered bytes of `"A"` (0x41) written and NOT yet
committed: `wrotePosition = 100`, `commitPosition = 0`, the buffer holds the
100 bytes, the 1024-byte mapping is still all zeros. -/
def freshBuffered1024After100 : File :=
  { wrotePosition := 100
    commitPosition := 0
    writeBuffer := some (List.replicate 100 65)
    hasPool := true
    fileSize := 1024
    fmap := List.replicate 1024 0
    wmm := true }

/-- The same scenario after `Commit()`: the 100 bytes are drained into the
mapping and the read boundary becomes 100. Derived by running the model. -/
def committedBuffered1024 : File := (Commit freshBuffered1024After100).1

/-- A small direct-mapped file without a write buffer: 3 bytes written, read
boundary `wrotePosition = 3`. Used to instantiate witnesses. -/
def tinyPlain : File :=
  { wrotePosition := 3, commitPosition := 0, writeBuffer := none,
    hasPool := false, fileSize := 8, fmap := [10, 11, 12, 13, 0, 0, 0, 0],
    wmm := true }

/-- C1 (counterexample): in the claim's own scenario — a fresh 1024-byte
buffered file with 100 uncommitted bytes, so `commitPosition = 0` — the call
`Read(0, buf[64])` does NOT return `ReadBeyondError`: the boundary check is
strict (`offset > readPosition`), so it succeeds and copies 1 byte. -/
theorem read_at_commit_boundary_not_beyond :
    ReadRLocked freshBuffered1024After100 0 64 ≠ .beyond ∧
      ReadRLocked freshBuffered1024After100 0 64 = .ok [0] 1 := by
  constructor
  · decide
  · decide

/-- C1 (amended): for a buffered-mode file, a `Read` whose offset lies
STRICTLY beyond `commitPosition` returns `ReadBeyondError`; the offset equal
to `commitPosition` itself is not rejected. -/
theorem read_strictly_beyond_commit_is_beyond (f : File) (offset : Int)
    (dataLen : Nat) (hbuf : f.writeBuffer.isSome)
    (h : getCommitPosition f < offset) :
    ReadRLocked f offset dataLen = .beyond := by
  have hrp : getReadPosition f = getCommitPosition f := by
    unfold getReadPosition; rw [if_pos hbuf]
  unfold ReadRLocked
  rw [hrp, if_pos (by omega)]

/-- C1 (witness): the amended theorem at the scenario state with offset 1,
which lies inside the written-but-uncommitted range (0, 100]. -/
theorem read_strictly_beyond_commit_is_beyond_witness :
    freshBuffered1024After100.writeBuffer.isSome = true ∧
      getCommitPosition freshBuffered1024After100 < 1 ∧
      ReadRLocked freshBuffered1024After100 1 64 = .beyond :=
  ⟨by decide, by decide,
    read_strictly_beyond_commit_is_beyond freshBuffered1024After100 1 64
      (by decide) (by decide)⟩

/-- C2: `ReadRLocked` fails with `ReadBeyondError` exactly when the offset
exceeds the read boundary (copying nothing), and otherwise copies exactly
`min (len outBuffer) (boundary - offset + 1)` bytes of the mapped region
starting at `offset` and returns that count. The two hypotheses are Go's
slice-bounds requirements (a non-negative offset and a copy that stays
inside the mapping), without which the Go code panics instead. -/
theorem ReadRLocked_boundary_spec (f : File) (offset : Int) (dataLen : Nat)
    (h0 : 0 ≤ offset)
    (hb : min (offset + (dataLen : Int)) (getReadPosition f + 1) ≤
      (f.fmap.length : Int)) :
    (getReadPosition f < offset → ReadRLocked f offset dataLen = .beyond) ∧
    (offset ≤ getReadPosition f →
      ReadRLocked f offset dataLen =
        .ok (goSlice f.fmap offset
              (offset + min (dataLen : Int) (getReadPosition f - offset + 1)))
          (min (dataLen : Int) (getReadPosition f - offset + 1)) ∧
      (goSlice f.fmap offset
          (offset + min (dataLen : Int) (getReadPosition f - offset + 1))).length
        = (min (dataLen : Int) (getReadPosition f - offset + 1)).toNat) := by
  unfold ReadRLocked
  constructor
  · intro h
    rw [if_pos (by omega)]
  · intro h
    rw [if_neg (by omega)]
    simp only []
    have hlen : ∀ a b : Int, 0 ≤ a → a ≤ b → b ≤ (f.fmap.length : Int) →
        (goSlice f.fmap a b).length = (b - a).toNat := by
      intro a b ha hab hbl
      unfold goSlice
      rw [List.length_drop, List.length_take]
      omega
    by_cases hc : offset + (dataLen : Int) - 1 > getReadPosition f
    · rw [if_pos hc, if_pos (by omega)]
      have h1 : getReadPosition f + 1 =
          offset + min (dataLen : Int) (getReadPosition f - offset + 1) := by omega
      refine ⟨by rw [h1]; congr 1; omega, ?_⟩
      rw [← h1, hlen offset (getReadPosition f + 1) h0 (by omega) (by omega)]
      omega
    · rw [if_neg hc, if_pos (by omega)]
      have h1 : offset + (dataLen : Int) - 1 + 1 =
          offset + min (dataLen : Int) (getReadPosition f - offset + 1) := by omega
      refine ⟨by rw [h1]; congr 1; omega, ?_⟩
      rw [← h1, hlen offset (offset + (dataLen : Int) - 1 + 1) h0 (by omega)
        (by omega)]
      omega

/-- C2 (witness): the boundary spec at a concrete direct-mapped file with
boundary 3: `Read(1, buf[2])` copies 2 bytes and returns 2. -/
theorem ReadRLocked_boundary_spec_witness :
    ReadRLocked tinyPlain 1 2 =
      .ok (goSlice tinyPlain.fmap 1
            (1 + min (2 : Int) (getReadPosition tinyPlain - 1 + 1)))
        (min (2 : Int) (getReadPosition tinyPlain - 1 + 1)) :=
  ((ReadRLocked_boundary_spec tinyPlain 1 2 (by decide) (by decide)).2
    (by decide)).1

/-- C3 (counterexample): in the committed scenario (boundary 100), the call
`Read(90, buf[64])` does not return 10 bytes: it returns
`boundary - offset + 1 = 11` bytes — the ten committed `"A"` bytes plus the
zero byte at offset 100, one past the committed data. -/
theorem scenario_read_90_not_ten_bytes :
    ReadRLocked committedBuffered1024 90 64 ≠ .ok (List.replicate 10 65) 10 ∧
      ReadRLocked committedBuffered1024 90 64 =
        .ok (List.replicate 10 65 ++ [0]) 11 := by
  constructor
  · decide
  · decide

/-- C3 (amended): in the scenario of a 1024-byte buffered file with exactly
100 bytes of `"A"` written and committed, `Read(90, buf[64])` is not an
error and returns exactly 11 bytes: ten `"A"` bytes followed by one zero
byte (the strict boundary check makes offset 100 readable as well). -/
theorem scenario_read_90_eleven_bytes :
    ReadRLocked committedBuffered1024 90 64 =
      .ok (List.replicate 10 65 ++ [0]) 11 := by
  decide

/-- A small descriptor-mode file (no buffer, `wmm = false`). -/
def tinyDescriptor : File :=
  { wrotePosition := 0, commitPosition := 0, writeBuffer := none,
    hasPool := false, fileSize := 10, fmap := List.replicate 10 0,
    wmm := false }

/-- A small buffered descriptor-mode file holding 2 uncommitted bytes. -/
def tinyBuffered : File :=
  { wrotePosition := 2, commitPosition := 0, writeBuffer := some [7, 8],
    hasPool := true, fileSize := 8, fmap := List.replicate 8 0, wmm := false }

/-- C4: a `Write` whose length would push past `fileSize` returns
`ErrWriteBeyond` with the whole state (in particular `wrotePosition` and
`commitPosition`) untouched, and likewise for `WriteBuffers` against the
aggregate length; conversely, in-capacity calls never return
`ErrWriteBeyond` and advance `wrotePosition` by exactly the count they
report accepted, leaving `commitPosition` alone. -/
theorem write_capacity_atomic (env : WEnv) (envB : WBEnv) (f : File)
    (data : List Nat) (buffs : List (List Nat)) :
    (f.wrotePosition + (data.length : Int) > f.fileSize →
      Write env f data = ⟨f, 0, some .writeBeyond⟩) ∧
    (f.wrotePosition + totalLen buffs > f.fileSize →
      WriteBuffers envB f buffs = ⟨f, buffs, 0, some .writeBeyond, false⟩) ∧
    (f.wrotePosition + (data.length : Int) ≤ f.fileSize →
      (Write env f data).err ≠ some .writeBeyond ∧
      (Write env f data).f.wrotePosition =
        f.wrotePosition + (Write env f data).n ∧
      (Write env f data).f.commitPosition = f.commitPosition) ∧
    (f.wrotePosition + totalLen buffs ≤ f.fileSize →
      (WriteBuffers envB f buffs).err ≠ some .writeBeyond ∧
      (WriteBuffers envB f buffs).f.wrotePosition =
        f.wrotePosition + (WriteBuffers envB f buffs).n ∧
      (WriteBuffers envB f buffs).f.commitPosition = f.commitPosition) := by
  refine ⟨?_, ?_, ?_, ?_⟩
  · intro h
    unfold Write
    rw [if_pos h]
  · intro h
    unfold WriteBuffers
    rw [if_pos h]
  · intro h
    unfold Write doWrite
    rw [if_neg (by omega)]
    cases hwb : f.writeBuffer with
    | some wb => simp
    | none =>
      by_cases hm : f.wmm
      · simp [hm]
      · by_cases he : env.fileWriteErr <;> simp [hm, he]
  · intro h
    unfold WriteBuffers
    rw [if_neg (by omega)]
    cases hwb : f.writeBuffer with
    | some wb => simp
    | none =>
      by_cases hm : f.wmm
      · by_cases hz : buffs.length = 0 <;> simp [hm, hz]
      · by_cases he : envB.writeToErr <;> simp [hm, he]

/-- C4 (witness): the capacity spec at `tinyPlain` with a 2-byte in-capacity
write: no `ErrWriteBeyond`, position advanced by the reported count,
`commitPosition` untouched. -/
theorem write_capacity_atomic_witness :
    (Write ⟨0, false⟩ tinyPlain [1, 2]).err ≠ some .writeBeyond ∧
      (Write ⟨0, false⟩ tinyPlain [1, 2]).f.wrotePosition =
        tinyPlain.wrotePosition + (Write ⟨0, false⟩ tinyPlain [1, 2]).n ∧
      (Write ⟨0, false⟩ tinyPlain [1, 2]).f.commitPosition =
        tinyPlain.commitPosition :=
  (write_capacity_atomic ⟨0, false⟩ ⟨0, false⟩ tinyPlain [1, 2] []).2.2.1
    (by decide)

/-- C5 (counterexample): in descriptor mode, when the underlying vectored
write reports only 1 of the batch's 3 bytes written together with an error,
`WriteBuffers` advances `wrotePosition` by that partial count 1 — neither by
the whole aggregate length 3 nor by 0 — so position bookkeeping is not
atomic in descriptor mode. -/
theorem writeBuffers_partial_descriptor_advance :
    (WriteBuffers ⟨1, true⟩ tinyDescriptor [[1, 2], [3]]).f.wrotePosition = 1 ∧
      (WriteBuffers ⟨1, true⟩ tinyDescriptor [[1, 2], [3]]).err =
        some .osErr ∧
      totalLen [[1, 2], [3]] = 3 ∧ (1 : Int) ≠ 0 ∧ (1 : Int) ≠ 3 := by
  decide

/-- C5 (amended): for an in-capacity `WriteBuffers`, position bookkeeping is
all-or-nothing in the buffered and direct-mapped modes (the whole aggregate
length is reflected and no error is returned), while in descriptor mode
`wrotePosition` advances by exactly the — possibly partial — count the
underlying `WriteTo` reports, and its error is surfaced to the caller. -/
theorem writeBuffers_position_bookkeeping (envB : WBEnv) (f : File)
    (buffs : List (List Nat))
    (hcap : f.wrotePosition + totalLen buffs ≤ f.fileSize) :
    (f.writeBuffer.isSome ∨ f.wmm = true →
      (WriteBuffers envB f buffs).f.wrotePosition =
        f.wrotePosition + totalLen buffs ∧
      (WriteBuffers envB f buffs).err = none) ∧
    (f.writeBuffer = none → f.wmm = false →
      (WriteBuffers envB f buffs).f.wrotePosition =
        f.wrotePosition + envB.writeToN ∧
      (WriteBuffers envB f buffs).err =
        (if envB.writeToErr then some .osErr else none)) := by
  constructor
  · intro hmode
    unfold WriteBuffers
    rw [if_neg (by omega)]
    cases hwb : f.writeBuffer with
    | some wb => simp
    | none =>
      have hm : f.wmm = true := by
        rcases hmode with hs | hm
        · rw [hwb] at hs; simp at hs
        · exact hm
      by_cases hz : buffs.length = 0 <;> simp [hm, hz]
  · intro hwb hm
    unfold WriteBuffers
    rw [if_neg (by omega)]
    rw [hwb]
    simp [hm]

/-- C5 (witness): the amended bookkeeping at a buffered file and a 2-buffer
batch: the whole aggregate length 2 is reflected and no error returned. -/
theorem writeBuffers_position_bookkeeping_witness :
    (WriteBuffers ⟨0, false⟩ tinyBuffered [[1], [2]]).f.wrotePosition =
      tinyBuffered.wrotePosition + totalLen [[1], [2]] ∧
      (WriteBuffers ⟨0, false⟩ tinyBuffered [[1], [2]]).err = none :=
  (writeBuffers_position_bookkeeping ⟨0, false⟩ tinyBuffered [[1], [2]]
    (by decide)).1 (Or.inl (by decide))

/-- The aggregate length is the length of the concatenation. -/
theorem totalLen_eq_flatten_length (buffs : List (List Nat)) :
    totalLen buffs = (buffs.flatten.length : Int) := by
  unfold totalLen
  rw [List.length_flatten]

theorem totalLen_nonneg (buffs : List (List Nat)) : 0 ≤ totalLen buffs := by
  unfold totalLen
  positivity

theorem bufLen_nonneg (f : File) : 0 ≤ f.bufLen := by
  unfold File.bufLen
  cases f.writeBuffer <;> simp

theorem inv_returnWriteBuffer (f : File) (hf : inv f) :
    inv (returnWriteBuffer f) := by
  have hb0 := bufLen_nonneg f
  unfold returnWriteBuffer
  cases hwb : f.writeBuffer with
  | none => exact hf
  | some wb =>
      simp only [inv, File.bufLen, hwb] at hf hb0 ⊢
      omega

theorem inv_Write (env : WEnv) (f : File) (data : List Nat) (hf : inv f)
    (h0 : 0 ≤ env.fileWriteN) (h1 : env.fileWriteN ≤ (data.length : Int)) :
    inv (Write env f data).f := by
  unfold Write
  by_cases hc : f.wrotePosition + (data.length : Int) > f.fileSize
  · rw [if_pos hc]
    exact hf
  · rw [if_neg hc]
    unfold doWrite
    cases hwb : f.writeBuffer with
    | some wb =>
        simp only [inv, File.bufLen, hwb] at hf ⊢
        simp only [List.length_append]
        push_cast
        omega
    | none =>
        simp only [inv, File.bufLen, hwb] at hf ⊢
        cases hm : f.wmm <;> (try simp) <;> omega

theorem inv_WriteBuffers (envB : WBEnv) (f : File) (buffs : List (List Nat))
    (hf : inv f) (h0 : 0 ≤ envB.writeToN)
    (h1 : envB.writeToN ≤ totalLen buffs) :
    inv (WriteBuffers envB f buffs).f := by
  have htot := totalLen_nonneg buffs
  unfold WriteBuffers
  by_cases hc : f.wrotePosition + totalLen buffs > f.fileSize
  · rw [if_pos hc]
    exact hf
  · rw [if_neg hc]
    cases hwb : f.writeBuffer with
    | some wb =>
        simp only [inv, File.bufLen, hwb] at hf ⊢
        simp only [List.length_append]
        rw [totalLen_eq_flatten_length] at hc htot h1 ⊢
        push_cast
        omega
    | none =>
        simp only [inv, File.bufLen, hwb] at hf ⊢
        cases hm : f.wmm <;>
          by_cases hz : buffs.length = 0 <;> (try simp [hz]) <;> omega

theorem inv_commitLocked (f : File) (hf : inv f) : inv (commitLocked f).1 := by
  unfold commitLocked
  cases hwb : f.writeBuffer with
  | none => simp only [hwb]; exact hf
  | some wb =>
      simp only [inv, File.bufLen, hwb] at hf
      simp only [hwb]
      split_ifs with hz hm <;> simp only [inv, File.bufLen, hwb] <;>
        (try simp) <;> omega

theorem inv_Commit (f : File) (hf : inv f) : inv (Commit f).1 := by
  unfold Commit
  cases hwb : f.writeBuffer with
  | none => simp only [hwb]; exact hf
  | some wb =>
      simp only [hwb]
      exact inv_commitLocked f hf

theorem inv_DoneWrite (f : File) (hf : inv f) : inv (DoneWrite f).1 := by
  unfold DoneWrite
  cases hwb : f.writeBuffer with
  | none => simp only [hwb]; exact hf
  | some wb =>
      simp only [hwb]
      exact inv_returnWriteBuffer _ (inv_commitLocked f hf)

theorem inv_Resize (envR : REnv) (f : File) (newSize : Int) (hf : inv f)
    (hn : f.wrotePosition ≤ newSize ∨ f.commitPosition + f.bufLen ≤ newSize) :
    inv (Resize envR f newSize).1 := by
  have hb0 := bufLen_nonneg f
  unfold Resize
  split_ifs with h1 h2 h3 h4 h5 h6 <;>
    · simp only [inv, File.bufLen] at hf hn hb0 ⊢
      cases hwb : f.writeBuffer <;> simp only [hwb] at hf hn hb0 ⊢ <;> omega

theorem inv_Shrink (envR : REnv) (f : File) (hf : inv f) :
    inv (Shrink envR f).1 := by
  unfold Shrink
  exact inv_Resize envR (Commit f).1 (Commit f).1.wrotePosition
    (inv_Commit f hf) (Or.inl le_rfl)

theorem resize_clamps (envR : REnv) (f : File) (newSize : Int) (hf : inv f)
    (hok : (Resize envR f newSize).2 = none)
    (hlt : newSize < f.wrotePosition) :
    (Resize envR f newSize).1.wrotePosition = newSize := by
  have hi := hf
  unfold inv at hi
  unfold Resize at hok ⊢
  split_ifs at hok ⊢ with h1 h2 h3 h4 h5
  · exfalso
    omega
  all_goals simp_all

theorem inv_init (envO : OEnv) (excl : Bool) (f : File)
    (hw : f.wrotePosition = 0) (hc : f.commitPosition = 0)
    (hb : f.bufLen = 0) (hsz : 0 ≤ f.fileSize)
    (hok : (init envO excl f).err = none) : inv (init envO excl f).f := by
  unfold init cleanup at hok ⊢
  split_ifs at hok ⊢ <;>
    · simp only [inv, File.bufLen] at hb ⊢
      cases hwb : f.writeBuffer <;> simp only [hwb] at hb <;>
        (try simp only []) <;> omega

theorem inv_OpenFile (envO : OEnv) (fsz : Int) (writable excl wmm pool : Bool)
    (hsz : 0 ≤ fsz)
    (hok : (OpenFile envO fsz writable excl wmm pool).err = none) :
    inv (OpenFile envO fsz writable excl wmm pool).f := by
  unfold OpenFile at hok ⊢
  split_ifs at hok ⊢ <;>
    exact inv_init envO excl _ rfl rfl (by simp [File.bufLen]) hsz hok

/-- The state the C6 counterexample starts from: a buffered direct-mapped
file with 6 bytes written and committed. It satisfies the claimed invariant
`0 ≤ commitPosition ≤ wrotePosition ≤ fileSize`. -/
def invBreak : File :=
  { wrotePosition := 6, commitPosition := 6, writeBuffer := some [],
    hasPool := true, fileSize := 8, fmap := List.replicate 8 0, wmm := true }

/-- C6 (counterexample): `Resize` clamps `wrotePosition` but never touches
`commitPosition`, so resizing a committed buffered file from 8 below its
commit position (to 3) succeeds and leaves `commitPosition = 6` above
`wrotePosition = 3`, violating `commitPosition ≤ wrotePosition` even though
the starting state satisfied the claimed invariant. -/
theorem resize_below_commit_breaks_invariant :
    (0 ≤ invBreak.commitPosition ∧
        invBreak.commitPosition ≤ invBreak.wrotePosition ∧
        invBreak.wrotePosition ≤ invBreak.fileSize) ∧
      (Resize ⟨true, true, true, true, List.replicate 3 0⟩ invBreak 3).2 =
        none ∧
      (Resize ⟨true, true, true, true, List.replicate 3 0⟩ invBreak
            3).1.wrotePosition = 3 ∧
      (Resize ⟨true, true, true, true, List.replicate 3 0⟩ invBreak
            3).1.commitPosition = 6 ∧
      ¬ (Resize ⟨true, true, true, true, List.replicate 3 0⟩ invBreak
            3).1.commitPosition ≤
        (Resize ⟨true, true, true, true, List.replicate 3 0⟩ invBreak
            3).1.wrotePosition := by
  decide

/-- C6 (amended): the strengthened position invariant
`0 ≤ commitPosition ∧ commitPosition + bufferedBytes ≤ wrotePosition ∧
wrotePosition ≤ fileSize` is established by every successful open (for a
non-negative requested size and stat size) and preserved by `Write`,
`WriteBuffers` (given the OS write contract `0 ≤ n ≤ len`), `Commit`,
`DoneWrite` and `Shrink`; it is preserved by `Resize(newSize)` provided
`newSize` is not below the committed data (`wrotePosition ≤ newSize`, or
`commitPosition` plus the buffered bytes at most `newSize`) — without that
proviso `Resize` breaks it, since it clamps only `wrotePosition`; and a
successful `Resize` to a smaller size clamps `wrotePosition` to `newSize`
whenever it previously exceeded it. -/
theorem position_invariant_preservation (f : File) (env : WEnv)
    (envB : WBEnv) (envR : REnv) (envO : OEnv) (data : List Nat)
    (buffs : List (List Nat)) (newSize fsz : Int)
    (writable excl wmm pool : Bool) (hf : inv f) :
    (0 ≤ env.fileWriteN → env.fileWriteN ≤ (data.length : Int) →
      inv (Write env f data).f) ∧
    (0 ≤ envB.writeToN → envB.writeToN ≤ totalLen buffs →
      inv (WriteBuffers envB f buffs).f) ∧
    inv (Commit f).1 ∧
    inv (DoneWrite f).1 ∧
    (f.wrotePosition ≤ newSize ∨
        f.commitPosition + f.bufLen ≤ newSize →
      inv (Resize envR f newSize).1) ∧
    inv (Shrink envR f).1 ∧
    ((Resize envR f newSize).2 = none → newSize < f.wrotePosition →
      (Resize envR f newSize).1.wrotePosition = newSize) ∧
    (0 ≤ fsz → 0 ≤ envO.statSize →
      (OpenFile envO fsz writable excl wmm pool).err = none →
      inv (OpenFile envO fsz writable excl wmm pool).f) :=
  ⟨fun h0 h1 => inv_Write env f data hf h0 h1,
    fun h0 h1 => inv_WriteBuffers envB f buffs hf h0 h1,
    inv_Commit f hf,
    inv_DoneWrite f hf,
    fun hn => inv_Resize envR f newSize hf hn,
    inv_Shrink envR f hf,
    fun hok hlt => resize_clamps envR f newSize hf hok hlt,
    fun hsz _ hok => inv_OpenFile envO fsz writable excl wmm pool hsz hok⟩

/-- C6 (witness): the preservation theorem applied at `tinyBuffered`
(which satisfies the strengthened invariant), extracting the `Commit`
conjunct. -/
theorem position_invariant_preservation_witness : inv (Commit tinyBuffered).1 :=
  (position_invariant_preservation tinyBuffered ⟨0, false⟩ ⟨0, false⟩
    ⟨true, true, true, true, []⟩ ⟨true, true, 0, true, true, true, []⟩ [] []
    0 0 true true true true (by decide)).2.2.1

/-- A small buffered direct-mapped file holding 2 uncommitted bytes. -/
def tinyBufferedWmm : File :=
  { wrotePosition := 2, commitPosition := 0, writeBuffer := some [65, 65],
    hasPool := true, fileSize := 8, fmap := List.replicate 8 0, wmm := true }

/-- C7 (counterexample): on a buffered direct-mapped file, after `DoneWrite`
has released the write buffer, a subsequent `Write` neither panics nor
returns an error: it is silently accepted — the byte is copied straight into
the mapping, `n = 1` is reported and `wrotePosition` advances. -/
theorem write_after_doneWrite_silently_accepted :
    (DoneWrite tinyBufferedWmm).1.writeBuffer = none ∧
      (Write ⟨0, false⟩ (DoneWrite tinyBufferedWmm).1 [66]).err = none ∧
      (Write ⟨0, false⟩ (DoneWrite tinyBufferedWmm).1 [66]).n = 1 ∧
      (Write ⟨0, false⟩ (DoneWrite tinyBufferedWmm).1 [66]).f.wrotePosition
        = 3 ∧
      (Write ⟨0, false⟩ (DoneWrite tinyBufferedWmm).1 [66]).f.fmap =
        [65, 65, 66, 0, 0, 0, 0, 0] := by
  decide

theorem write_unbuffered_wmm (env : WEnv) (g : File) (data : List Nat)
    (hwb : g.writeBuffer = none) (hm : g.wmm = true)
    (hcap : g.wrotePosition + (data.length : Int) ≤ g.fileSize) :
    Write env g data =
      ⟨{ g with fmap := listCopyAt g.fmap g.wrotePosition data,
                wrotePosition := g.wrotePosition + (data.length : Int) },
        (data.length : Int), none⟩ := by
  unfold Write doWrite
  rw [if_neg (by omega)]
  simp only [hwb, hm, if_true]

/-- C7 (amended): after `DoneWrite` on a buffered file, the write buffer is
permanently gone, and a subsequent in-capacity `Write` does NOT fail loudly:
it is dispatched as an ordinary unbuffered write — in direct-mapped mode it
is accepted with no error, the data copied into the mapping at
`wrotePosition` — rather than rejected or panicking. -/
theorem write_after_doneWrite_dispatches_unbuffered (f : File) (env : WEnv)
    (data : List Nat) :
    (DoneWrite f).1.writeBuffer = none ∧
    ((DoneWrite f).1.wmm = true →
      (DoneWrite f).1.wrotePosition + (data.length : Int) ≤
        (DoneWrite f).1.fileSize →
      Write env (DoneWrite f).1 data =
        ⟨{ (DoneWrite f).1 with
             fmap := listCopyAt (DoneWrite f).1.fmap
               (DoneWrite f).1.wrotePosition data,
             wrotePosition :=
               (DoneWrite f).1.wrotePosition + (data.length : Int) },
          (data.length : Int), none⟩) := by
  have hrwb : ∀ g : File, (returnWriteBuffer g).writeBuffer = none := by
    intro g
    unfold returnWriteBuffer
    cases hwb : g.writeBuffer <;> simp [hwb]
  have hnone : (DoneWrite f).1.writeBuffer = none := by
    unfold DoneWrite
    cases hwb : f.writeBuffer with
    | none => exact hwb
    | some wb => exact hrwb _
  exact ⟨hnone, fun hm hcap => write_unbuffered_wmm env _ data hnone hm hcap⟩

/-- C7 (witness): the amended theorem at the concrete buffered direct-mapped
file: the write after `DoneWrite` succeeds as a direct copy. -/
theorem write_after_doneWrite_dispatches_unbuffered_witness :
    Write ⟨0, false⟩ (DoneWrite tinyBufferedWmm).1 [66] =
      ⟨{ (DoneWrite tinyBufferedWmm).1 with
           fmap := listCopyAt (DoneWrite tinyBufferedWmm).1.fmap
             (DoneWrite tinyBufferedWmm).1.wrotePosition [66],
           wrotePosition := (DoneWrite tinyBufferedWmm).1.wrotePosition +
             (List.length [66] : Int) },
        (List.length [66] : Int), none⟩ :=
  (write_after_doneWrite_dispatches_unbuffered tinyBufferedWmm ⟨0, false⟩
    [66]).2 (by decide) (by decide)

/-- The open environment in which the very first step — `os.OpenFile`
itself — fails. -/
def openFailEnv : OEnv := ⟨false, true, 0, true, true, true, []⟩

/-- C8 (counterexample): a writable `OpenFile` with a pool acquires a buffer
before calling `init`; when `os.OpenFile` itself fails, the cleanup `defer`
is not yet registered, so the call returns the error with the pool buffer
still attached to the abandoned `File` and never returned to the pool. -/
theorem openFile_open_failure_keeps_buffer :
    (OpenFile openFailEnv 8 true true true true).err = some .osErr ∧
      (OpenFile openFailEnv 8 true true true true).bufferReturned = false ∧
      (OpenFile openFailEnv 8 true true true true).fileClosed = false ∧
      (OpenFile openFailEnv 8 true true true true).f.writeBuffer.isSome =
        true := by
  decide

/-- C8 (amended): every writable `OpenFile`/`CreateFile` call that fails
AFTER the initial descriptor open succeeded (stat, truncate, resume-offset
check, seek or mmap failing) closes the descriptor and, when a pool buffer
was acquired, returns it to the pool before the error is returned; only a
failure of the initial open itself leaks the buffer. -/
theorem returnWriteBuffer_writeBuffer (g : File) :
    (returnWriteBuffer g).writeBuffer = none := by
  unfold returnWriteBuffer
  cases hwb : g.writeBuffer <;> simp [hwb]

theorem init_failures_release (envO : OEnv) (excl : Bool) (g : File) (e : Err)
    (hopen : envO.openOk = true) (herr : (init envO excl g).err = some e) :
    (init envO excl g).fileClosed = true ∧
    (init envO excl g).bufferReturned = g.writeBuffer.isSome ∧
    (init envO excl g).f.writeBuffer = none := by
  unfold init at herr ⊢
  split_ifs at herr ⊢ <;>
    exact ⟨rfl, rfl, returnWriteBuffer_writeBuffer _⟩

theorem init_failure_after_open_releases (envO : OEnv) (fsz : Int)
    (excl wmm pool : Bool) (e : Err) (hopen : envO.openOk = true)
    (herr : (OpenFile envO fsz true excl wmm pool).err = some e) :
    (OpenFile envO fsz true excl wmm pool).fileClosed = true ∧
    (pool = true →
      (OpenFile envO fsz true excl wmm pool).bufferReturned = true) ∧
    (OpenFile envO fsz true excl wmm pool).f.writeBuffer = none := by
  unfold OpenFile at herr ⊢
  by_cases hp : pool = true
  · rw [if_pos rfl, if_pos hp] at herr ⊢
    have h := init_failures_release envO excl
      ⟨0, 0, some [], true, fsz, [], wmm⟩ e hopen herr
    exact ⟨h.1, fun _ => h.2.1, h.2.2⟩
  · rw [if_pos rfl, if_neg hp] at herr ⊢
    have h := init_failures_release envO excl
      ⟨0, 0, none, false, fsz, [], wmm⟩ e hopen herr
    exact ⟨h.1, fun hpp => absurd hpp hp, h.2.2⟩

/-- C8 (witness): the amended theorem where the `Stat` step fails on a
buffered create: the descriptor is closed and the buffer returned. -/
theorem init_failure_after_open_releases_witness :
    (OpenFile ⟨true, false, 0, true, true, true, []⟩ 8 true true true
        true).fileClosed = true ∧
      (true = true →
        (OpenFile ⟨true, false, 0, true, true, true, []⟩ 8 true true true
            true).bufferReturned = true) ∧
      (OpenFile ⟨true, false, 0, true, true, true, []⟩ 8 true true true
          true).f.writeBuffer = none :=
  init_failure_after_open_releases ⟨true, false, 0, true, true, true, []⟩ 8
    true true true .osErr (by decide) (by decide)

/-- C9: when `Resize(newSize)` with `newSize` different from the current
size fails at the initial truncate step, it returns the error and the whole
observable state — `fileSize`, `wrotePosition`, `commitPosition` and the
mapped region — is exactly the state before the call. -/
theorem resize_truncate_failure_unchanged (envR : REnv) (f : File)
    (newSize : Int) (hne : newSize ≠ f.fileSize)
    (ht : envR.truncateOk = false) :
    Resize envR f newSize = (f, some .osErr) := by
  unfold Resize
  rw [if_neg (by omega), if_pos (by simp [ht])]

/-- C9 (witness): the truncate-failure theorem at `tinyPlain` resized to 4
with a failing truncate. -/
theorem resize_truncate_failure_unchanged_witness :
    Resize ⟨false, true, true, true, []⟩ tinyPlain 4 =
      (tinyPlain, some .osErr) :=
  resize_truncate_failure_unchanged ⟨false, true, true, true, []⟩ tinyPlain 4
    (by decide) (by decide)

theorem listCopyAt_inbounds (dst src : List Nat) (p : Nat)
    (h : p + src.length ≤ dst.length) :
    listCopyAt dst (p : Int) src =
      dst.take p ++ src ++ dst.drop (p + src.length) := by
  unfold listCopyAt
  rw [Int.toNat_natCast,
    List.take_of_length_le (l := src) (by omega : src.length ≤ dst.length - p)]

theorem length_listCopyAt (dst src : List Nat) (p : Nat)
    (h : p + src.length ≤ dst.length) :
    (listCopyAt dst (p : Int) src).length = dst.length := by
  rw [listCopyAt_inbounds dst src p h]
  simp only [List.length_append, List.length_take, List.length_drop]
  omega

theorem listCopyAt_listCopyAt (dst s t : List Nat) (p : Nat)
    (h : p + s.length + t.length ≤ dst.length) :
    listCopyAt (listCopyAt dst (p : Int) s) (((p + s.length : Nat) : Int)) t =
      listCopyAt dst (p : Int) (s ++ t) := by
  rw [listCopyAt_inbounds dst s p (by omega)]
  rw [listCopyAt_inbounds _ t (p + s.length)
    (by simp only [List.length_append, List.length_take, List.length_drop]
        omega)]
  rw [listCopyAt_inbounds dst (s ++ t) p
    (by simp only [List.length_append]; omega)]
  have hlen : (dst.take p ++ s).length = p + s.length := by
    simp only [List.length_append, List.length_take]
    omega
  rw [List.take_left' hlen]
  rw [← List.drop_drop]
  rw [List.drop_left' hlen]
  rw [List.drop_drop]
  simp only [List.append_assoc, List.length_append, Nat.add_assoc]

theorem writeListsAt_flatten (srcs : List (List Nat)) (dst : List Nat)
    (p : Nat) (h : p + srcs.flatten.length ≤ dst.length) :
    writeListsAt dst (p : Int) srcs = listCopyAt dst (p : Int) srcs.flatten := by
  induction srcs generalizing dst p with
  | nil =>
      unfold writeListsAt listCopyAt
      simp
  | cons s rest ih =>
      unfold writeListsAt
      have hcast : (p : Int) + (s.length : Int) = ((p + s.length : Nat) : Int) := by
        push_cast
        ring
      rw [hcast]
      have hs : p + s.length ≤ dst.length := by
        simp only [List.flatten_cons, List.length_append] at h
        omega
      rw [ih (listCopyAt dst (p : Int) s) (p + s.length)
        (by rw [length_listCopyAt dst s p hs]
            simp only [List.flatten_cons, List.length_append] at h
            omega)]
      rw [listCopyAt_listCopyAt dst s rest.flatten p
        (by simp only [List.flatten_cons, List.length_append] at h; omega)]
      rw [List.flatten_cons]

theorem totalLen_cons (b : List Nat) (rest : List (List Nat)) :
    totalLen (b :: rest) = (b.length : Int) + totalLen rest := by
  unfold totalLen
  simp only [List.map_cons, List.sum_cons]
  push_cast
  ring

/-- `net.Buffers.WriteTo` consumes everything when it has written the whole
aggregate length. -/
theorem buffersConsume_totalLen (buffs : List (List Nat)) :
    buffersConsume (totalLen buffs) buffs = [] := by
  induction buffs with
  | nil => rfl
  | cons b rest ih =>
      unfold buffersConsume
      have hr := totalLen_nonneg rest
      rw [totalLen_cons]
      rw [if_neg (by omega)]
      have : (b.length : Int) + totalLen rest - (b.length : Int) =
          totalLen rest := by ring
      rw [this]
      exact ih

theorem drop_pred_getLast (l : List (List Nat)) (h : l ≠ []) :
    l.drop (l.length - 1) = [l.getLast h] := by
  induction l with
  | nil => exact absurd rfl h
  | cons b t ih =>
      cases t with
      | nil => rfl
      | cons c r =>
          rw [List.getLast_cons (by simp : (c :: r) ≠ [])]
          have h1 : (b :: c :: r).length - 1 = (c :: r).length := by simp
          rw [h1]
          have h2 : (c :: r).length = ((c :: r).length - 1) + 1 := by simp
          rw [h2, List.drop_succ_cons]
          exact ih (by simp)

/-- C10: a successful direct-mapped (`wmm`, no buffer) `WriteBuffers` with a
non-empty batch copies the concatenation of all the buffers into the mapped
region at `wrotePosition` and then mutates the caller's slice to hold
exactly its last element — it is not emptied — whereas in buffered mode,
and in descriptor mode when the underlying `WriteTo` succeeds, the slice is
fully consumed. -/
theorem writeBuffers_slice_semantics (envB : WBEnv) (f : File)
    (buffs : List (List Nat)) (hwb : f.writeBuffer = none)
    (hm : f.wmm = true) (hk : buffs ≠ []) (h0 : 0 ≤ f.wrotePosition)
    (hcap : f.wrotePosition + totalLen buffs ≤ f.fileSize)
    (hfit : f.wrotePosition + totalLen buffs ≤ (f.fmap.length : Int)) :
    ((WriteBuffers envB f buffs).f.fmap =
        listCopyAt f.fmap f.wrotePosition buffs.flatten ∧
      (WriteBuffers envB f buffs).buffs = [buffs.getLast hk] ∧
      (WriteBuffers envB f buffs).n = totalLen buffs ∧
      (WriteBuffers envB f buffs).err = none) ∧
    (∀ g : File, ∀ wb : List Nat, g.writeBuffer = some wb →
      g.wrotePosition + totalLen buffs ≤ g.fileSize →
      (WriteBuffers envB g buffs).buffs = []) ∧
    (∀ g : File, g.writeBuffer = none → g.wmm = false →
      envB.writeToErr = false → envB.writeToN = totalLen buffs →
      g.wrotePosition + totalLen buffs ≤ g.fileSize →
      (WriteBuffers envB g buffs).buffs = []) := by
  have hflat := totalLen_eq_flatten_length buffs
  have hlen0 : ¬ buffs.length = 0 := fun hz => hk (List.length_eq_zero.mp hz)
  constructor
  · unfold WriteBuffers
    rw [if_neg (by omega)]
    simp only [hwb, hm, if_pos rfl]
    rw [if_neg hlen0]
    have hptn : f.wrotePosition = ((f.wrotePosition.toNat : Nat) : Int) :=
      (Int.toNat_of_nonneg h0).symm
    refine ⟨?_, ?_, rfl, rfl⟩
    · show writeListsAt f.fmap f.wrotePosition buffs =
        listCopyAt f.fmap f.wrotePosition buffs.flatten
      rw [hptn]
      exact writeListsAt_flatten buffs f.fmap f.wrotePosition.toNat (by omega)
    · show buffs.drop (buffs.length - 1) = [buffs.getLast hk]
      exact drop_pred_getLast buffs hk
  · constructor
    · intro g wb hg hc
      unfold WriteBuffers
      rw [if_neg (by omega)]
      simp only [hg]
    · intro g hg hm2 he hn hc
      unfold WriteBuffers
      rw [if_neg (by omega)]
      simp only [hg, hm2]
      show buffersConsume envB.writeToN buffs = []
      rw [hn]
      exact buffersConsume_totalLen buffs

/-- C10 (witness): the slice semantics at `tinyPlain` with the 2-buffer
batch `[[1], [2,3]]`: the reported count is the aggregate length. -/
theorem writeBuffers_slice_semantics_witness :
    (WriteBuffers ⟨3, false⟩ tinyPlain [[1], [2, 3]]).n =
      totalLen [[1], [2, 3]] :=
  ((writeBuffers_slice_semantics ⟨3, false⟩ tinyPlain [[1], [2, 3]]
    (by decide) (by decide) (by decide) (by decide) (by decide)
    (by decide)).1).2.2.1

end Mapped
